import Mathlib

/-!
Verification of the Ed25519 DLEQ / scalar-multiplication-hint tooling.

The Python tooling under `tools/` (and `fix_hints.py`) is shallowly embedded
here: Python big integers become `Nat`/`Int` (Python `%` on a positive modulus
agrees with `Int.emod` / `Nat.mod`), Python's three-argument `pow(b, e, m)`
becomes the fuelled modular exponentiation `powmod`, Python's modular inverse
`pow(v, -1, m)` (which raises `ValueError` when no inverse exists) becomes the
`Option`-valued extended-Euclid `invmod`, and functions that can `raise`
return `Option`.
-/

set_option maxRecDepth 40000

/-- Ed25519 base-field prime `p = 2^255 - 19` (constant `P` in
`tools/generate_sqrt_hints.py`, `curve.p` elsewhere). -/
def P25519 : Nat := 2 ^ 255 - 19

/-- Ed25519 twisted-Edwards coefficient `d` (constant `D` in
`tools/generate_sqrt_hints.py`; `curve.d_twisted` elsewhere). -/
def D25519 : Nat := 37095705934669439343138083508754565189542113879843219016388785533085940283555

/-- Ed25519 group order `ℓ` (constant `ED25519_ORDER` in
`tools/verify_fake_glv_decomposition.py` line 23). -/
def ED25519_ORDER : Nat := 2 ^ 252 + 27742317777372353535851937790883648493

/-- Fuelled core of modular exponentiation; the fuel only bounds the number of
halvings of the exponent. -/
def powmodAux : Nat → Nat → Nat → Nat → Nat
  | 0, _, _, m => 1 % m
  | fuel + 1, a, n, m =>
    if n = 0 then 1 % m
    else if n % 2 = 1 then powmodAux fuel (a * a % m) (n / 2) m * (a % m) % m
    else powmodAux fuel (a * a % m) (n / 2) m

/-- Python's three-argument `pow(a, n, m)`: modular exponentiation by
square-and-multiply. -/
def powmod (a n m : Nat) : Nat :=
  powmodAux n a n m

theorem powmodAux_eq (fuel : Nat) :
    ∀ a n m, 0 < m → n ≤ fuel → powmodAux fuel a n m = a ^ n % m := by
  induction fuel with
  | zero =>
    intro a n m hm hn
    have : n = 0 := Nat.le_zero.mp hn
    subst this
    simp [powmodAux]
  | succ fuel ih =>
    intro a n m hm hn
    by_cases h0 : n = 0
    · subst h0; simp [powmodAux]
    · have hrec : n / 2 ≤ fuel := by omega
      have hr := ih (a * a % m) (n / 2) m hm hrec
      have hsq : (a * a % m) ^ (n / 2) % m = (a * a) ^ (n / 2) % m :=
        (Nat.pow_mod (a * a) (n / 2) m).symm
      have hkey : (a * a) ^ (n / 2) = a ^ (2 * (n / 2)) := by
        rw [pow_mul, pow_two]
      rcases Nat.even_or_odd n with he | ho
      · have hmod : ¬ n % 2 = 1 := by
          have := Nat.even_iff.mp he
          omega
        have hn2 : 2 * (n / 2) = n := by
          have := Nat.even_iff.mp he
          omega
        simp only [powmodAux]
        rw [if_neg h0, if_neg hmod, hr, hsq, hkey, hn2]
      · have hmod : n % 2 = 1 := Nat.odd_iff.mp ho
        have hn2 : 2 * (n / 2) + 1 = n := by omega
        simp only [powmodAux]
        rw [if_neg h0, if_pos hmod, hr, hsq, hkey, ← Nat.mul_mod, ← pow_succ, hn2]

theorem powmod_eq (a n m : Nat) (hm : 0 < m) : powmod a n m = a ^ n % m :=
  powmodAux_eq n a n m hm le_rfl

theorem powmod_lt (a n m : Nat) (hm : 0 < m) : powmod a n m < m := by
  rw [powmod_eq a n m hm]
  exact Nat.mod_lt _ hm

theorem natCast_powmod (n a e : Nat) (hn : 0 < n) :
    ((powmod a e n : Nat) : ZMod n) = (a : ZMod n) ^ e := by
  rw [powmod_eq a e n hn, ZMod.natCast_mod, Nat.cast_pow]

theorem powmod_cast_eq_one {n a e : Nat} (hn : 0 < n) (hc : powmod a e n = 1) :
    ((a : Nat) : ZMod n) ^ e = 1 := by
  rw [← natCast_powmod n a e hn, hc, Nat.cast_one]

theorem powmod_cast_ne_one {n a e : Nat} (hn : 2 ≤ n) (hc : powmod a e n ≠ 1) :
    ((a : Nat) : ZMod n) ^ e ≠ 1 := by
  intro h
  rw [← natCast_powmod n a e (by omega), show (1 : ZMod n) = ((1 : Nat) : ZMod n) by simp,
    ZMod.natCast_eq_natCast_iff'] at h
  have hlt := powmod_lt a e n (by omega)
  rw [Nat.mod_eq_of_lt hlt, Nat.mod_eq_of_lt (by omega)] at h
  exact hc h

/-- Step of the Lucas-primality certificate chain for `P25519`. -/
theorem prime_2773320623 : Nat.Prime 2773320623 := by
  refine lucas_primality _ ((5 : Nat) : ZMod 2773320623)
    (powmod_cast_eq_one (by norm_num) (by decide)) ?_
  intro q hq hdvd
  have hfac : q ∣ 2 * (2437 * 569003) := by
    have he : (2773320623 - 1 : Nat) = 2 * (2437 * 569003) := by norm_num
    rwa [he] at hdvd
  rcases (Nat.Prime.dvd_mul hq).mp hfac with h | h
  · obtain rfl := (Nat.prime_dvd_prime_iff_eq hq (by norm_num)).mp h
    exact powmod_cast_ne_one (by norm_num) (by decide)
  rcases (Nat.Prime.dvd_mul hq).mp h with h' | h'
  · obtain rfl := (Nat.prime_dvd_prime_iff_eq hq (by norm_num)).mp h'
    exact powmod_cast_ne_one (by norm_num) (by decide)
  · obtain rfl := (Nat.prime_dvd_prime_iff_eq hq (by norm_num)).mp h'
    exact powmod_cast_ne_one (by norm_num) (by decide)

/-- Step of the Lucas-primality certificate chain for `P25519`. -/
theorem prime_72106336199 : Nat.Prime 72106336199 := by
  refine lucas_primality _ ((7 : Nat) : ZMod 72106336199)
    (powmod_cast_eq_one (by norm_num) (by decide)) ?_
  intro q hq hdvd
  have hfac : q ∣ 2 * (13 * 2773320623) := by
    have he : (72106336199 - 1 : Nat) = 2 * (13 * 2773320623) := by norm_num
    rwa [he] at hdvd
  rcases (Nat.Prime.dvd_mul hq).mp hfac with h | h
  · obtain rfl := (Nat.prime_dvd_prime_iff_eq hq (by norm_num)).mp h
    exact powmod_cast_ne_one (by norm_num) (by decide)
  rcases (Nat.Prime.dvd_mul hq).mp h with h' | h'
  · obtain rfl := (Nat.prime_dvd_prime_iff_eq hq (by norm_num)).mp h'
    exact powmod_cast_ne_one (by norm_num) (by decide)
  · obtain rfl := (Nat.prime_dvd_prime_iff_eq hq prime_2773320623).mp h'
    exact powmod_cast_ne_one (by norm_num) (by decide)

/-- Step of the Lucas-primality certificate chain for `P25519`. -/
theorem prime_1919519569386763 : Nat.Prime 1919519569386763 := by
  refine lucas_primality _ ((2 : Nat) : ZMod 1919519569386763)
    (powmod_cast_eq_one (by norm_num) (by decide)) ?_
  intro q hq hdvd
  have hfac : q ∣ 2 * (3 * (7 * (19 * (47 ^ 2 * (127 * 8574133))))) := by
    have he : (1919519569386763 - 1 : Nat) =
        2 * (3 * (7 * (19 * (47 ^ 2 * (127 * 8574133))))) := by norm_num
    rwa [he] at hdvd
  rcases (Nat.Prime.dvd_mul hq).mp hfac with h | h
  · obtain rfl := (Nat.prime_dvd_prime_iff_eq hq (by norm_num)).mp h
    exact powmod_cast_ne_one (by norm_num) (by decide)
  rcases (Nat.Prime.dvd_mul hq).mp h with h | h
  · obtain rfl := (Nat.prime_dvd_prime_iff_eq hq (by norm_num)).mp h
    exact powmod_cast_ne_one (by norm_num) (by decide)
  rcases (Nat.Prime.dvd_mul hq).mp h with h | h
  · obtain rfl := (Nat.prime_dvd_prime_iff_eq hq (by norm_num)).mp h
    exact powmod_cast_ne_one (by norm_num) (by decide)
  rcases (Nat.Prime.dvd_mul hq).mp h with h | h
  · obtain rfl := (Nat.prime_dvd_prime_iff_eq hq (by norm_num)).mp h
    exact powmod_cast_ne_one (by norm_num) (by decide)
  rcases (Nat.Prime.dvd_mul hq).mp h with h | h
  · obtain rfl := (Nat.prime_dvd_prime_iff_eq hq (by norm_num)).mp
      (Nat.Prime.dvd_of_dvd_pow hq h)
    exact powmod_cast_ne_one (by norm_num) (by decide)
  rcases (Nat.Prime.dvd_mul hq).mp h with h | h
  · obtain rfl := (Nat.prime_dvd_prime_iff_eq hq (by norm_num)).mp h
    exact powmod_cast_ne_one (by norm_num) (by decide)
  · obtain rfl := (Nat.prime_dvd_prime_iff_eq hq (by norm_num)).mp h
    exact powmod_cast_ne_one (by norm_num) (by decide)

/-- Step of the Lucas-primality certificate chain for `P25519`. -/
theorem prime_31757755568855353 : Nat.Prime 31757755568855353 := by
  refine lucas_primality _ ((10 : Nat) : ZMod 31757755568855353)
    (powmod_cast_eq_one (by norm_num) (by decide)) ?_
  intro q hq hdvd
  have hfac : q ∣ 2 ^ 3 * (3 * (31 * (107 * (223 * (4153 * 430751))))) := by
    have he : (31757755568855353 - 1 : Nat) =
        2 ^ 3 * (3 * (31 * (107 * (223 * (4153 * 430751))))) := by norm_num
    rwa [he] at hdvd
  rcases (Nat.Prime.dvd_mul hq).mp hfac with h | h
  · obtain rfl := (Nat.prime_dvd_prime_iff_eq hq (by norm_num)).mp
      (Nat.Prime.dvd_of_dvd_pow hq h)
    exact powmod_cast_ne_one (by norm_num) (by decide)
  rcases (Nat.Prime.dvd_mul hq).mp h with h | h
  · obtain rfl := (Nat.prime_dvd_prime_iff_eq hq (by norm_num)).mp h
    exact powmod_cast_ne_one (by norm_num) (by decide)
  rcases (Nat.Prime.dvd_mul hq).mp h with h | h
  · obtain rfl := (Nat.prime_dvd_prime_iff_eq hq (by norm_num)).mp h
    exact powmod_cast_ne_one (by norm_num) (by decide)
  rcases (Nat.Prime.dvd_mul hq).mp h with h | h
  · obtain rfl := (Nat.prime_dvd_prime_iff_eq hq (by norm_num)).mp h
    exact powmod_cast_ne_one (by norm_num) (by decide)
  rcases (Nat.Prime.dvd_mul hq).mp h with h | h
  · obtain rfl := (Nat.prime_dvd_prime_iff_eq hq (by norm_num)).mp h
    exact powmod_cast_ne_one (by norm_num) (by decide)
  rcases (Nat.Prime.dvd_mul hq).mp h with h | h
  · obtain rfl := (Nat.prime_dvd_prime_iff_eq hq (by norm_num)).mp h
    exact powmod_cast_ne_one (by norm_num) (by decide)
  · obtain rfl := (Nat.prime_dvd_prime_iff_eq hq (by norm_num)).mp h
    exact powmod_cast_ne_one (by norm_num) (by decide)

/-- Step of the Lucas-primality certificate chain for `P25519`:
the 116-bit prime factor. -/
theorem prime_R116 : Nat.Prime 75445702479781427272750846543864801 := by
  refine lucas_primality _ ((7 : Nat) : ZMod 75445702479781427272750846543864801)
    (powmod_cast_eq_one (by norm_num) (by decide)) ?_
  intro q hq hdvd
  have hfac : q ∣ 2 ^ 5 * (3 ^ 2 * (5 ^ 2 * (75707 * (72106336199 * 1919519569386763)))) := by
    have he : (75445702479781427272750846543864801 - 1 : Nat) =
        2 ^ 5 * (3 ^ 2 * (5 ^ 2 * (75707 * (72106336199 * 1919519569386763)))) := by norm_num
    rwa [he] at hdvd
  rcases (Nat.Prime.dvd_mul hq).mp hfac with h | h
  · obtain rfl := (Nat.prime_dvd_prime_iff_eq hq (by norm_num)).mp
      (Nat.Prime.dvd_of_dvd_pow hq h)
    exact powmod_cast_ne_one (by norm_num) (by decide)
  rcases (Nat.Prime.dvd_mul hq).mp h with h | h
  · obtain rfl := (Nat.prime_dvd_prime_iff_eq hq (by norm_num)).mp
      (Nat.Prime.dvd_of_dvd_pow hq h)
    exact powmod_cast_ne_one (by norm_num) (by decide)
  rcases (Nat.Prime.dvd_mul hq).mp h with h | h
  · obtain rfl := (Nat.prime_dvd_prime_iff_eq hq (by norm_num)).mp
      (Nat.Prime.dvd_of_dvd_pow hq h)
    exact powmod_cast_ne_one (by norm_num) (by decide)
  rcases (Nat.Prime.dvd_mul hq).mp h with h | h
  · obtain rfl := (Nat.prime_dvd_prime_iff_eq hq (by norm_num)).mp h
    exact powmod_cast_ne_one (by norm_num) (by decide)
  rcases (Nat.Prime.dvd_mul hq).mp h with h | h
  · obtain rfl := (Nat.prime_dvd_prime_iff_eq hq prime_72106336199).mp h
    exact powmod_cast_ne_one (by norm_num) (by decide)
  · obtain rfl := (Nat.prime_dvd_prime_iff_eq hq prime_1919519569386763).mp h
    exact powmod_cast_ne_one (by norm_num) (by decide)

/-- Step of the Lucas-primality certificate chain for `P25519`:
the 233-bit prime factor. -/
theorem prime_Q233 :
    Nat.Prime 74058212732561358302231226437062788676166966415465897661863160754340907 := by
  refine lucas_primality _
    ((2 : Nat) : ZMod 74058212732561358302231226437062788676166966415465897661863160754340907)
    (powmod_cast_eq_one (by norm_num) (by decide)) ?_
  intro q hq hdvd
  have hfac : q ∣ 2 * (3 * (353 * (57467 * (132049 * (1923133 *
      (31757755568855353 * 75445702479781427272750846543864801)))))) := by
    have he : (74058212732561358302231226437062788676166966415465897661863160754340907 - 1 :
        Nat) = 2 * (3 * (353 * (57467 * (132049 * (1923133 *
        (31757755568855353 * 75445702479781427272750846543864801)))))) := by norm_num
    rwa [he] at hdvd
  rcases (Nat.Prime.dvd_mul hq).mp hfac with h | h
  · obtain rfl := (Nat.prime_dvd_prime_iff_eq hq (by norm_num)).mp h
    exact powmod_cast_ne_one (by norm_num) (by decide)
  rcases (Nat.Prime.dvd_mul hq).mp h with h | h
  · obtain rfl := (Nat.prime_dvd_prime_iff_eq hq (by norm_num)).mp h
    exact powmod_cast_ne_one (by norm_num) (by decide)
  rcases (Nat.Prime.dvd_mul hq).mp h with h | h
  · obtain rfl := (Nat.prime_dvd_prime_iff_eq hq (by norm_num)).mp h
    exact powmod_cast_ne_one (by norm_num) (by decide)
  rcases (Nat.Prime.dvd_mul hq).mp h with h | h
  · obtain rfl := (Nat.prime_dvd_prime_iff_eq hq (by norm_num)).mp h
    exact powmod_cast_ne_one (by norm_num) (by decide)
  rcases (Nat.Prime.dvd_mul hq).mp h with h | h
  · obtain rfl := (Nat.prime_dvd_prime_iff_eq hq (by norm_num)).mp h
    exact powmod_cast_ne_one (by norm_num) (by decide)
  rcases (Nat.Prime.dvd_mul hq).mp h with h | h
  · obtain rfl := (Nat.prime_dvd_prime_iff_eq hq (by norm_num)).mp h
    exact powmod_cast_ne_one (by norm_num) (by decide)
  rcases (Nat.Prime.dvd_mul hq).mp h with h | h
  · obtain rfl := (Nat.prime_dvd_prime_iff_eq hq prime_31757755568855353).mp h
    exact powmod_cast_ne_one (by norm_num) (by decide)
  · obtain rfl := (Nat.prime_dvd_prime_iff_eq hq prime_R116).mp h
    exact powmod_cast_ne_one (by norm_num) (by decide)

/-- The Ed25519 base-field modulus `2^255 - 19` is prime (Lucas certificate). -/
theorem prime_P25519 : Nat.Prime P25519 := by
  refine lucas_primality _ ((2 : Nat) : ZMod P25519)
    (powmod_cast_eq_one (by norm_num [P25519]) (by decide)) ?_
  intro q hq hdvd
  have hfac : q ∣ 2 ^ 2 * (3 * (65147 *
      74058212732561358302231226437062788676166966415465897661863160754340907)) := by
    have he : (P25519 - 1 : Nat) = 2 ^ 2 * (3 * (65147 *
        74058212732561358302231226437062788676166966415465897661863160754340907)) := by
      norm_num [P25519]
    rwa [he] at hdvd
  rcases (Nat.Prime.dvd_mul hq).mp hfac with h | h
  · obtain rfl := (Nat.prime_dvd_prime_iff_eq hq (by norm_num)).mp
      (Nat.Prime.dvd_of_dvd_pow hq h)
    exact powmod_cast_ne_one (by norm_num [P25519]) (by decide)
  rcases (Nat.Prime.dvd_mul hq).mp h with h | h
  · obtain rfl := (Nat.prime_dvd_prime_iff_eq hq (by norm_num)).mp h
    exact powmod_cast_ne_one (by norm_num [P25519]) (by decide)
  rcases (Nat.Prime.dvd_mul hq).mp h with h | h
  · obtain rfl := (Nat.prime_dvd_prime_iff_eq hq (by norm_num)).mp h
    exact powmod_cast_ne_one (by norm_num [P25519]) (by decide)
  · obtain rfl := (Nat.prime_dvd_prime_iff_eq hq prime_Q233).mp h
    exact powmod_cast_ne_one (by norm_num [P25519]) (by decide)

instance : Fact (Nat.Prime P25519) := ⟨prime_P25519⟩

/-- Fuelled extended-Euclid loop: invariants `s0·a ≡ r0` and `s1·a ≡ r1 (mod m)`.
The fuel only bounds the number of Euclid steps, which strictly decrease `r1`. -/
def invAux : Nat → Nat → Nat → Int → Int → Option Int
  | 0, _, _, _, _ => none
  | fuel + 1, r0, r1, s0, s1 =>
    if r1 = 0 then
      if r0 = 1 then some s0 else none
    else invAux fuel r1 (r0 % r1) s1 (s0 - ((r0 / r1 : Nat) : Int) * s1)

/-- Python's `pow(a, -1, m)`: the modular inverse in `[0, m)`, or `none` where
Python raises `ValueError` (no inverse exists). -/
def invmod (a : Int) (m : Nat) : Option Int :=
  (invAux (m + 1) (a % (m : Int)).toNat m 1 0).map (fun s => s % (m : Int))

/-- Python's `pow(a, e, m)` for a signed base: the base is reduced into
`[0, m)` first, then `powmod` is applied. -/
def ipowmod (a : Int) (e m : Nat) : Int :=
  ((powmod (a % (m : Int)).toNat e m : Nat) : Int)

/-- A square root of `-1` mod `p`: `I = pow(2, (p - 1) // 4, p)`
(`fix_hints.py` line 16, `tools/generate_sqrt_hints.py` line 59). -/
def I25519 : Nat := powmod 2 ((P25519 - 1) / 4) P25519

/-- Python's `int.from_bytes(bs, byteorder = little)` on a list of byte
values. -/
def fromLE : List Nat → Nat
  | [] => 0
  | b :: rest => b + 256 * fromLE rest

theorem fromLE_nil : fromLE [] = 0 := rfl

theorem fromLE_cons (b : Nat) (rest : List Nat) :
    fromLE (b :: rest) = b + 256 * fromLE rest := rfl

theorem fromLE_append (l₁ l₂ : List Nat) :
    fromLE (l₁ ++ l₂) = fromLE l₁ + 256 ^ l₁.length * fromLE l₂ := by
  induction l₁ with
  | nil => simp [fromLE_nil]
  | cons b rest ih =>
    rw [List.cons_append, fromLE_cons, fromLE_cons, ih, List.length_cons, pow_succ]
    ring

theorem fromLE_lt (l : List Nat) (h : ∀ b ∈ l, b < 256) :
    fromLE l < 256 ^ l.length := by
  induction l with
  | nil => simp [fromLE_nil]
  | cons b rest ih =>
    have hb : b < 256 := h b (by simp)
    have hr : fromLE rest < 256 ^ rest.length := ih (fun x hx => h x (by simp [hx]))
    simp only [fromLE_cons, List.length_cons, pow_succ]
    calc b + 256 * fromLE rest < 256 + 256 * fromLE rest := by omega
    _ = 256 * (fromLE rest + 1) := by ring
    _ ≤ 256 * 256 ^ rest.length := by
        have : fromLE rest + 1 ≤ 256 ^ rest.length := hr
        exact Nat.mul_le_mul_left 256 this
    _ = 256 ^ rest.length * 256 := by ring

theorem fromLE_take_mod (l : List Nat) (k : Nat) (hlen : k ≤ l.length)
    (h : ∀ b ∈ l, b < 256) : fromLE (l.take k) = fromLE l % 256 ^ k := by
  have hsplit : fromLE l = fromLE (l.take k) + 256 ^ k * fromLE (l.drop k) := by
    conv_lhs => rw [← List.take_append_drop k l]
    rw [fromLE_append, List.length_take, Nat.min_eq_left hlen]
  have hlt : fromLE (l.take k) < 256 ^ k := by
    have := fromLE_lt (l.take k) (fun b hb => h b (List.mem_of_mem_take hb))
    rwa [List.length_take, Nat.min_eq_left hlen] at this
  rw [hsplit, Nat.add_mul_mod_self_left, Nat.mod_eq_of_lt hlt]

theorem fromLE_drop_div (l : List Nat) (k : Nat) (hlen : k ≤ l.length)
    (h : ∀ b ∈ l, b < 256) : fromLE (l.drop k) = fromLE l / 256 ^ k := by
  have hsplit : fromLE l = fromLE (l.take k) + 256 ^ k * fromLE (l.drop k) := by
    conv_lhs => rw [← List.take_append_drop k l]
    rw [fromLE_append, List.length_take, Nat.min_eq_left hlen]
  have hlt : fromLE (l.take k) < 256 ^ k := by
    have := fromLE_lt (l.take k) (fun b hb => h b (List.mem_of_mem_take hb))
    rwa [List.length_take, Nat.min_eq_left hlen] at this
  rw [hsplit, Nat.add_mul_div_left _ _ (Nat.pos_pow_of_pos k (by norm_num)),
    Nat.div_eq_of_lt hlt, Nat.zero_add]

namespace VerifyFakeGlvDecomposition

/-- Embedding of `decode` (`tools/verify_fake_glv_decomposition.py` lines
27-31): decode the sign-magnitude encoding of a sub-scalar. -/
def decode (encoded : Int) : Int :=
  if ((1 <<< 128 : Nat) : Int) ≤ encoded then -(encoded - ((1 <<< 128 : Nat) : Int))
  else encoded

/-- Embedding of `verify_hint` (`tools/verify_fake_glv_decomposition.py`
lines 34-67): the hint's scalar checks, transcribed as the same early-return
cascade.  The source function additionally regenerates a hint via garaga
and prints diagnostics; neither affects the returned boolean. -/
def verify_hint (scalar : Int) (hint : List Int) : Bool :=
  let s1_actual := hint.getD 8 0
  let s2_actual := hint.getD 9 0
  let s2_decoded := decode s2_actual
  if (s1_actual + scalar * s2_decoded) % ((ED25519_ORDER : Nat) : Int) ≠ 0 then false
  else if s1_actual ≤ 0 then false
  else if s2_decoded = 0 then false
  else true

/-- Embedding of the scalar preparation in `main`
(`tools/verify_fake_glv_decomposition.py` lines 87-95): split into 128-bit
halves, recombine, truncate to the low 128 bits, then reduce mod the order. -/
def truncate_then_reduce (v : Nat) : Nat :=
  let low := v &&& ((1 <<< 128) - 1)
  let high := (v >>> 128) &&& ((1 <<< 128) - 1)
  let cairo := low + high * (1 <<< 128)
  let truncated := cairo &&& ((1 <<< 128) - 1)
  truncated % ED25519_ORDER

end VerifyFakeGlvDecomposition

namespace RegenerateDleqHints

/-- Embedding of `u384_to_limbs` (`tools/regenerate_dleq_hints.py` lines
31-39): split a coordinate into 4 little-endian 96-bit limbs. -/
def u384_to_limbs (value : Nat) : List Nat :=
  [value &&& ((1 <<< 96) - 1),
   (value >>> 96) &&& ((1 <<< 96) - 1),
   (value >>> 192) &&& ((1 <<< 96) - 1),
   (value >>> 288) &&& ((1 <<< 96) - 1)]

/-- Embedding of the direct scalar reduction in `main`
(`tools/regenerate_dleq_hints.py` line 103): the full 256-bit value reduced
mod the order, with no truncation. -/
def reduce_scalar_direct (v : Nat) : Nat :=
  v % ED25519_ORDER

/-- Embedding of the `s2` sign-magnitude decoding inside `verify_hint`
(`tools/regenerate_dleq_hints.py` lines 272-278). -/
def s2_decode (s2_encoded : Int) : Int :=
  if ((1 <<< 128 : Nat) : Int) ≤ s2_encoded then
    let s2_abs := s2_encoded - ((1 <<< 128 : Nat) : Int);
    -s2_abs
  else s2_encoded

end RegenerateDleqHints

namespace VerifyExactScalarMatch

/-- Embedding of the inline `s2` decoder (`tools/verify_exact_scalar_match.py`
line 69): note the `2^127` threshold, unlike the other decoders. -/
def s2_signed (s2_response : Int) : Int :=
  if s2_response < ((1 <<< 127 : Nat) : Int) then s2_response
  else -(s2_response - ((1 <<< 128 : Nat) : Int))

end VerifyExactScalarMatch

/-- The inline Fermat inverse `pow(denominator, p - 2, p)` used by the
decompression routines (`tools/generate_hints_exact.py` line 63,
`tools/regenerate_dleq_hints.py` line 160). -/
def fermat_inverse (v : Int) : Int :=
  ipowmod v (P25519 - 2) P25519

namespace GenerateHintsExact

/-- Embedding of `decompress_with_garaga` (`tools/generate_hints_exact.py`
lines 35-88) up to the twisted-Edwards pair `(x, y)`; the final call into
garaga's `curve.to_weierstrass` / `G1Point` constructor is outside the
repository and is not part of the embedded function.  The `compressed`
argument is the little-endian integer of the 32 compressed bytes (the hex
parsing is elided), and a `raise` becomes `none`. -/
def decompress_with_garaga (compressed sqrt_hint_low sqrt_hint_high : Nat) :
    Option (Int × Int) :=
  let sign_bit : Nat := (compressed >>> 255) &&& 1
  let y : Nat := compressed &&& ((1 <<< 255) - 1)
  let x0 : Int := ((sqrt_hint_low ||| (sqrt_hint_high <<< 128) : Nat) : Int) % ((P25519 : Nat) : Int)
  let y2 : Int := ((y : Int) * (y : Int)) % ((P25519 : Nat) : Int)
  let numerator : Int := (y2 - 1) % ((P25519 : Nat) : Int)
  let denominator : Int := (((D25519 : Nat) : Int) * y2 + 1) % ((P25519 : Nat) : Int)
  let denominator_inv : Int := fermat_inverse denominator
  let x2_expected : Int := (numerator * denominator_inv) % ((P25519 : Nat) : Int)
  let x1 : Int := if x0 % 2 ≠ ((sign_bit : Nat) : Int) then
    (((P25519 : Nat) : Int) - x0) % ((P25519 : Nat) : Int) else x0
  let x2_actual : Int := (x1 * x1) % ((P25519 : Nat) : Int)
  if x2_actual = x2_expected then some (x1, (y : Int))
  else
    let x_alt : Int := (((P25519 : Nat) : Int) - x1) % ((P25519 : Nat) : Int)
    if (x_alt * x_alt) % ((P25519 : Nat) : Int) = x2_expected then some (x_alt, (y : Int))
    else none

end GenerateHintsExact

namespace RegenerateDleqHints

/-- Embedding of the nested `decompress_edwards_point`
(`tools/regenerate_dleq_hints.py` lines 130-185), identical in body to
`decompress_with_garaga` in `tools/generate_hints_exact.py`; see that
definition for the conventions. -/
def decompress_edwards_point (compressed sqrt_hint_low sqrt_hint_high : Nat) :
    Option (Int × Int) :=
  GenerateHintsExact.decompress_with_garaga compressed sqrt_hint_low sqrt_hint_high

end RegenerateDleqHints

namespace FixHints

/-- Embedding of the module-level constant `d` (`fix_hints.py` line 13):
`d = -121665 * pow(121666, -1, p) % p`.  The inverse exists, so the
`Option` is collapsed with a default that is never used. -/
def d_fix : Int :=
  (-121665 * ((invmod 121666 P25519).getD 0)) % ((P25519 : Nat) : Int)

/-- Embedding of `recover_x` (`fix_hints.py` lines 18-50): recover the
x-coordinate from `y`, trying `x * I` when the first candidate root fails,
and always returning the even root.  A `raise` becomes `none`. -/
def recover_x (y : Int) : Option Int :=
  let u := (y * y - 1) % ((P25519 : Nat) : Int)
  let v := (d_fix * y * y + 1) % ((P25519 : Nat) : Int)
  match invmod v P25519 with
  | none => none
  | some v_inv =>
    let x2 := (u * v_inv) % ((P25519 : Nat) : Int)
    let x := ipowmod x2 ((P25519 + 3) / 8) P25519
    let x := if (x * x) % ((P25519 : Nat) : Int) ≠ x2 then
      (x * ((I25519 : Nat) : Int)) % ((P25519 : Nat) : Int) else x
    if (x * x) % ((P25519 : Nat) : Int) ≠ x2 then none
    else if x % 2 ≠ 0 then some (((P25519 : Nat) : Int) - x)
    else some x

end FixHints

namespace GenerateSqrtHints

/-- Embedding of `xrecover_twisted_edwards` (`tools/generate_sqrt_hints.py`
lines 24-71): recover the x-coordinate from a compressed encoding,
matching the parity of the result to the encoding's sign bit.  The
`assert` and `raise` become `none`. -/
def xrecover_twisted_edwards (y_compressed : Nat) : Option Int :=
  let sign_bit : Nat := (y_compressed >>> 255) &&& 1
  let y : Nat := y_compressed &&& ((1 <<< 255) - 1)
  let y_sq : Int := ((y : Int) * (y : Int)) % ((P25519 : Nat) : Int)
  let numerator : Int := (y_sq - 1) % ((P25519 : Nat) : Int)
  let denominator : Int := (((D25519 : Nat) : Int) * y_sq + 1) % ((P25519 : Nat) : Int)
  match invmod denominator P25519 with
  | none => none
  | some dinv =>
    let x_sq := (numerator * dinv) % ((P25519 : Nat) : Int)
    let x := ipowmod x_sq ((P25519 + 3) / 8) P25519
    let x_sq_check := (x * x) % ((P25519 : Nat) : Int)
    if x_sq_check = x_sq then
      some (if x % 2 ≠ ((sign_bit : Nat) : Int) then
        (((P25519 : Nat) : Int) - x) % ((P25519 : Nat) : Int) else x)
    else if x_sq_check = (((P25519 : Nat) : Int) - x_sq) % ((P25519 : Nat) : Int) then
      let x := (x * ((I25519 : Nat) : Int)) % ((P25519 : Nat) : Int);
      if (x * x) % ((P25519 : Nat) : Int) = x_sq then
        some (if x % 2 ≠ ((sign_bit : Nat) : Int) then
          (((P25519 : Nat) : Int) - x) % ((P25519 : Nat) : Int) else x)
      else none
    else none

end GenerateSqrtHints

namespace GenerateCorrectSqrtHints

/-- Embedding of `hex_to_u256` (`tools/generate_correct_sqrt_hints.py`
lines 25-34): the first 16 bytes little-endian are the low limb, the last
16 the high limb.  The argument is the byte list (hex parsing elided). -/
def hex_to_u256 (bytes_val : List Nat) : Nat × Nat :=
  (fromLE (bytes_val.take 16), fromLE (bytes_val.drop 16))

end GenerateCorrectSqrtHints

namespace GaragaConversion

/-- Embedding of `bytes_to_u256_garaga_style` (`tools/garaga_conversion.py`
lines 9-47), restricted to the `(low, high)` pair it computes: interpret
all 32 bytes little-endian, then split arithmetically at bit 128. -/
def bytes_to_u256_garaga_style (bytes_32 : List Nat) : Nat × Nat :=
  let int_value := fromLE bytes_32
  (int_value &&& ((1 <<< 128) - 1), (int_value >>> 128) &&& ((1 <<< 128) - 1))

end GaragaConversion

namespace GenerateDleqHints

/-- Embedding of `limbs_to_int` (`tools/generate_dleq_hints.py` lines
222-229): reconstruct a coordinate from its 4 little-endian 96-bit limbs
(the hex-string parsing of each limb is elided). -/
def limbs_to_int (limbs : List Nat) : Nat :=
  limbs.getD 0 0 + (limbs.getD 1 0 <<< 96) + (limbs.getD 2 0 <<< 192) +
    (limbs.getD 3 0 <<< 288)

end GenerateDleqHints

namespace VerifyChallengeComputation

/-- The 4 ASCII bytes of the domain tag (`tools/verify_challenge_computation.py`
line 94). -/
def DLEQ_TAG : List Nat := [0x44, 0x4C, 0x45, 0x51]

/-- Embedding of the challenge computation in `compute_dleq_challenge_python`
(`tools/verify_challenge_computation.py` lines 103-135), parameterised by the
hash function (Python's `hashlib.blake2s` with 32-byte digests, an external
library): concatenate tag and inputs, hash, split the digest into two
16-byte little-endian halves, recombine, and reduce mod the order. -/
def compute_dleq_challenge (blake2s : List Nat → List Nat)
    (g y t u r1 r2 hashlock_bytes : List Nat) : Nat :=
  let data := DLEQ_TAG ++ g ++ y ++ t ++ u ++ r1 ++ r2 ++ hashlock_bytes
  let digest := blake2s data
  let low := fromLE (digest.take 16)
  let high := fromLE (digest.drop 16)
  let full := low + (high <<< 128)
  full % ED25519_ORDER

end VerifyChallengeComputation

namespace SpecModel

/-- Modelled from the spec: the prime-field inverse of §4.1, by
Fermat's-little-theorem exponentiation over the base field. -/
def finv (a : Nat) : Nat := powmod a (P25519 - 2) P25519

/-- Modelled from the spec: twisted-Edwards point addition over the curve
of §3 (`a = -1`), written with all field operations reduced mod `p`.
`garaga.points.G1Point` arithmetic, which the tooling imports for this,
is outside the repository. -/
def edAdd (pt qt : Nat × Nat) : Nat × Nat :=
  let t := D25519 * pt.1 % P25519 * qt.1 % P25519 * pt.2 % P25519 * qt.2 % P25519
  let x3 := (pt.1 * qt.2 % P25519 + pt.2 * qt.1 % P25519) % P25519 *
    finv ((1 + t) % P25519) % P25519
  let y3 := (pt.2 * qt.2 % P25519 + pt.1 * qt.1 % P25519) % P25519 *
    finv ((1 + P25519 - t) % P25519) % P25519
  (x3, y3)

/-- Fuelled double-and-add; the fuel only bounds the halvings of the scalar. -/
def scalarMulAux : Nat → Nat → Nat × Nat → Nat × Nat
  | 0, _, _ => (0, 1)
  | fuel + 1, k, pt =>
    if k = 0 then (0, 1)
    else if k % 2 = 1 then edAdd (scalarMulAux fuel (k / 2) (edAdd pt pt)) pt
    else scalarMulAux fuel (k / 2) (edAdd pt pt)

/-- Modelled from the spec: scalar multiplication `k · P` in the Edwards
group (`G1Point.scalar_mul` in garaga, outside the repository). -/
def scalarMul (k : Nat) (pt : Nat × Nat) : Nat × Nat :=
  scalarMulAux k k pt

/-- Modelled from the spec (§4.3): `garaga.hints.fake_glv.get_fake_glv_hint`
is outside the repository; the spec asks for any `(Q, s1, s2)` with
`Q = k·P`, `s1 + k·decode(s2) ≡ 0 (mod ℓ)`, `s1 > 0`, and `s2 ≠ 0` in its
sign-magnitude encoding.  This model returns the solution
`s2 = 1`, `s1 = (-k) mod ℓ` (with `s1 = ℓ` when `ℓ ∣ k`, keeping `s1 > 0`). -/
def get_fake_glv_hint (pt : Nat × Nat) (k : Nat) : (Nat × Nat) × Nat × Nat :=
  (scalarMul k pt,
   if k % ED25519_ORDER = 0 then ED25519_ORDER else ED25519_ORDER - k % ED25519_ORDER,
   1)

/-- Modelled from the spec (§4.2): `compress` serialises `y` in 255 bits and
sets bit 255 to the parity of `x`.  No compression routine exists in the
repository sources (compression happens on the Rust side). -/
def compress (x y : Nat) : Nat :=
  y + x % 2 * 2 ^ 255

/-- Modelled from the spec (§4.4): the challenge is the digest of
tag ‖ G ‖ Y ‖ T ‖ U ‖ R1 ‖ R2 ‖ context, interpreted as a little-endian
256-bit integer and reduced mod the group order. -/
def spec_challenge (hash : List Nat → List Nat)
    (g y t u r1 r2 context : List Nat) : Nat :=
  fromLE (hash (VerifyChallengeComputation.DLEQ_TAG ++
    g ++ y ++ t ++ u ++ r1 ++ r2 ++ context)) % ED25519_ORDER

/-- The curve-membership predicate, written as the documented equation
`-x^2 + y^2 = 1 + d*x^2*y^2 (mod p)` (comment in `fix_hints.py` lines 22
and `tools/generate_sqrt_hints.py` line 19), with Python-style mod. -/
def onCurve (x y : Int) : Prop :=
  (-(x * x) + y * y) % ((P25519 : Nat) : Int) =
    (1 + ((D25519 : Nat) : Int) * (x * x) * (y * y)) % ((P25519 : Nat) : Int)

instance (x y : Int) : Decidable (onCurve x y) := by
  unfold onCurve
  infer_instance

end SpecModel

namespace GenerateHintsExact

/-- The candidate root reconstructed from the sqrt hint, reduced mod `p`
(`tools/generate_hints_exact.py` lines 56-57). -/
def hint_x (sqrt_hint_low sqrt_hint_high : Nat) : Int :=
  ((sqrt_hint_low ||| (sqrt_hint_high <<< 128) : Nat) : Int) % ((P25519 : Nat) : Int)

/-- The expected square `(y^2 - 1) / (d*y^2 + 1) mod p` computed by the
decompression routine (`tools/generate_hints_exact.py` lines 59-64). -/
def x2_expected_of (compressed : Nat) : Int :=
  let y : Nat := compressed &&& ((1 <<< 255) - 1)
  let y2 : Int := ((y : Int) * (y : Int)) % ((P25519 : Nat) : Int)
  let numerator : Int := (y2 - 1) % ((P25519 : Nat) : Int)
  let denominator : Int := (((D25519 : Nat) : Int) * y2 + 1) % ((P25519 : Nat) : Int)
  (numerator * fermat_inverse denominator) % ((P25519 : Nat) : Int)

end GenerateHintsExact

theorem neg_emod_sq (a : Int) :
    ((((P25519 : Nat) : Int) - a) % ((P25519 : Nat) : Int) *
      ((((P25519 : Nat) : Int) - a) % ((P25519 : Nat) : Int))) % ((P25519 : Nat) : Int) =
    (a * a) % ((P25519 : Nat) : Int) := by
  rw [← ZMod.intCast_eq_intCast_iff']
  push_cast [ZMod.intCast_mod]
  rw [ZMod.natCast_self]
  ring

theorem intCast_ipowmod (a : Int) (e m : Nat) (hm : 0 < m) :
    ((ipowmod a e m : Int) : ZMod m) = ((a : ZMod m)) ^ e := by
  unfold ipowmod
  rw [Int.cast_natCast, natCast_powmod m _ e hm]
  congr 1
  have h0 : (0 : Int) ≤ a % (m : Int) := Int.emod_nonneg a (by exact_mod_cast hm.ne')
  calc (((a % (m : Int)).toNat : Nat) : ZMod m)
      = ((((a % (m : Int)).toNat : Nat) : Int) : ZMod m) := (Int.cast_natCast _).symm
    _ = ((a % (m : Int) : Int) : ZMod m) := by rw [Int.toNat_of_nonneg h0]
    _ = (a : ZMod m) := ZMod.intCast_mod a m

theorem verify_hint_eq_true_iff (scalar s1 s2 : Int) :
    VerifyFakeGlvDecomposition.verify_hint scalar [0, 0, 0, 0, 0, 0, 0, 0, s1, s2] = true ↔
    ((s1 + scalar * VerifyFakeGlvDecomposition.decode s2) % ((ED25519_ORDER : Nat) : Int) = 0 ∧
     0 < s1 ∧ VerifyFakeGlvDecomposition.decode s2 ≠ 0) := by
  simp only [VerifyFakeGlvDecomposition.verify_hint, List.getD_cons_succ, List.getD_cons_zero]
  split_ifs with h1 h2 h3 <;> simp_all

/-- C1: for every scalar `k` and base point `P`, the (spec-modelled) hint
generator yields a hint `(Q, s1, s2)` that the source `verify_hint` accepts —
`s1 + k·decode(s2) ≡ 0 (mod ℓ)`, `s1 > 0`, `decode(s2) ≠ 0` — and the claimed
point `Q` equals `k·P`.  The hint list is laid out as in the source
(`sG_hint[8] = s1`, `sG_hint[9] = s2`, remaining entries zeroed). -/
theorem fake_glv_hint_generation_verifies (pt : Nat × Nat) (k : Nat) :
    VerifyFakeGlvDecomposition.verify_hint ((k : Nat) : Int)
      [0, 0, 0, 0, 0, 0, 0, 0,
        (((SpecModel.get_fake_glv_hint pt k).2.1 : Nat) : Int),
        (((SpecModel.get_fake_glv_hint pt k).2.2 : Nat) : Int)] = true ∧
    (SpecModel.get_fake_glv_hint pt k).1 = SpecModel.scalarMul k pt := by
  refine ⟨?_, rfl⟩
  have hdec1 : VerifyFakeGlvDecomposition.decode 1 = 1 := by
    norm_num [VerifyFakeGlvDecomposition.decode, Nat.shiftLeft_eq]
  rw [verify_hint_eq_true_iff]
  simp only [SpecModel.get_fake_glv_hint, Nat.cast_one, hdec1]
  refine ⟨?_, ?_, one_ne_zero⟩
  · by_cases hk : k % ED25519_ORDER = 0
    · rw [if_pos hk]
      obtain ⟨c, hc⟩ : (ED25519_ORDER : Int) ∣ (k : Int) :=
        Int.natCast_dvd_natCast.mpr (Nat.dvd_of_mod_eq_zero hk)
      rw [hc]
      have hrw : ((ED25519_ORDER : Nat) : Int) + (ED25519_ORDER : Int) * c * 1 =
          (ED25519_ORDER : Int) * (1 + c) := by ring
      rw [hrw, Int.mul_emod_right]
    · rw [if_neg hk]
      have hlt : k % ED25519_ORDER < ED25519_ORDER :=
        Nat.mod_lt _ (by norm_num [ED25519_ORDER])
      have hcast : ((ED25519_ORDER - k % ED25519_ORDER : Nat) : Int) =
          ((ED25519_ORDER : Nat) : Int) - ((k % ED25519_ORDER : Nat) : Int) := by
        push_cast [Nat.cast_sub (le_of_lt hlt)]
        ring
      rw [hcast]
      push_cast
      have he := Int.ediv_add_emod (k : Int) ((ED25519_ORDER : Nat) : Int)
      have hrw : ((ED25519_ORDER : Nat) : Int) - (k : Int) % ((ED25519_ORDER : Nat) : Int) +
          (k : Int) * 1 =
          ((ED25519_ORDER : Nat) : Int) * (1 + (k : Int) / ((ED25519_ORDER : Nat) : Int)) := by
        linarith
      rw [hrw, Int.mul_emod_right]
  · by_cases hk : k % ED25519_ORDER = 0
    · rw [if_pos hk]; norm_num [ED25519_ORDER]
    · rw [if_neg hk]
      have hlt : k % ED25519_ORDER < ED25519_ORDER :=
        Nat.mod_lt _ (by norm_num [ED25519_ORDER])
      have hpos : 0 < ED25519_ORDER - k % ED25519_ORDER := by omega
      exact_mod_cast Int.natCast_pos.mpr hpos

/-- C2: the Fiat–Shamir challenge computed by the source equals the 256-bit
digest of `tag ‖ G ‖ Y ‖ T ‖ U ‖ R1 ‖ R2 ‖ context` (the spec layout),
interpreted as a little-endian 256-bit integer and reduced mod the group
order, for every 32-byte-digest hash function. -/
theorem dleq_challenge_matches_spec_layout (hash : List Nat → List Nat)
    (g y t u r1 r2 context : List Nat)
    (hlen : (hash (VerifyChallengeComputation.DLEQ_TAG ++
      g ++ y ++ t ++ u ++ r1 ++ r2 ++ context)).length = 32)
    (hb : ∀ b ∈ hash (VerifyChallengeComputation.DLEQ_TAG ++
      g ++ y ++ t ++ u ++ r1 ++ r2 ++ context), b < 256) :
    VerifyChallengeComputation.compute_dleq_challenge hash g y t u r1 r2 context =
      SpecModel.spec_challenge hash g y t u r1 r2 context := by
  simp only [VerifyChallengeComputation.compute_dleq_challenge, SpecModel.spec_challenge,
    Nat.shiftLeft_eq]
  rw [fromLE_take_mod _ 16 (by omega) hb, fromLE_drop_div _ 16 (by omega) hb,
    show (256 : Nat) ^ 16 = 2 ^ 128 by norm_num]
  congr 1
  omega

/-- Witness for C2 at a concrete constant-digest hash and concrete inputs. -/
theorem dleq_challenge_matches_spec_layout_witness :
    VerifyChallengeComputation.compute_dleq_challenge (fun _ => List.replicate 32 7)
      (List.replicate 32 1) (List.replicate 32 2) (List.replicate 32 3)
      (List.replicate 32 4) (List.replicate 32 5) (List.replicate 32 6)
      (List.replicate 32 0) =
    SpecModel.spec_challenge (fun _ => List.replicate 32 7)
      (List.replicate 32 1) (List.replicate 32 2) (List.replicate 32 3)
      (List.replicate 32 4) (List.replicate 32 5) (List.replicate 32 6)
      (List.replicate 32 0) := by
  apply dleq_challenge_matches_spec_layout
  · simp
  · intro b hb
    have := List.eq_of_mem_replicate hb
    omega

/-- C4: decompression accepts the supplied candidate root only if its square
mod `p` equals the expected `x² = (y²−1)/(d·y²+1) mod p` (returning `none`,
the embedded `raise`, otherwise), and the returned x-coordinate is only ever
the supplied candidate or its single parity negation `p − x` — no other root
is substituted.  Stated for `decompress_with_garaga`; the identical
`decompress_edwards_point` is included by definitional equality. -/
theorem decompress_accepts_only_supplied_root (compressed low high : Nat) :
    ((GenerateHintsExact.decompress_with_garaga compressed low high).isSome ↔
      (GenerateHintsExact.hint_x low high * GenerateHintsExact.hint_x low high) %
        ((P25519 : Nat) : Int) = GenerateHintsExact.x2_expected_of compressed) ∧
    (∀ x' y', GenerateHintsExact.decompress_with_garaga compressed low high = some (x', y') →
      (x' = GenerateHintsExact.hint_x low high ∨
       x' = (((P25519 : Nat) : Int) - GenerateHintsExact.hint_x low high) %
         ((P25519 : Nat) : Int)) ∧
      y' = ((compressed &&& ((1 <<< 255) - 1) : Nat) : Int)) ∧
    RegenerateDleqHints.decompress_edwards_point compressed low high =
      GenerateHintsExact.decompress_with_garaga compressed low high := by
  refine ⟨?_, ?_, rfl⟩ <;> (
    have hgen : GenerateHintsExact.decompress_with_garaga compressed low high =
        (let x0 := GenerateHintsExact.hint_x low high;
         let exp := GenerateHintsExact.x2_expected_of compressed;
         let yv : Int := ((compressed &&& ((1 <<< 255) - 1) : Nat) : Int);
         let x1 := if x0 % 2 ≠ (((compressed >>> 255) &&& 1 : Nat) : Int) then
           (((P25519 : Nat) : Int) - x0) % ((P25519 : Nat) : Int) else x0;
         if (x1 * x1) % ((P25519 : Nat) : Int) = exp then some (x1, yv)
         else if ((((P25519 : Nat) : Int) - x1) % ((P25519 : Nat) : Int) *
             ((((P25519 : Nat) : Int) - x1) % ((P25519 : Nat) : Int))) %
             ((P25519 : Nat) : Int) = exp then
           some ((((P25519 : Nat) : Int) - x1) % ((P25519 : Nat) : Int), yv)
         else none) := rfl
    rw [hgen]
    simp only []
    set x0 := GenerateHintsExact.hint_x low high with hx0
    set exp := GenerateHintsExact.x2_expected_of compressed with hexp
    set yv : Int := ((compressed &&& ((1 <<< 255) - 1) : Nat) : Int) with hyv
    by_cases hpar : x0 % 2 ≠ (((compressed >>> 255) &&& 1 : Nat) : Int))
  · rw [if_pos hpar]
    by_cases hsq : (x0 * x0) % ((P25519 : Nat) : Int) = exp
    · rw [if_pos (by rw [neg_emod_sq]; exact hsq)]
      simp [hsq]
    · rw [if_neg (by rw [neg_emod_sq]; exact hsq),
        if_neg (by rw [neg_emod_sq, neg_emod_sq]; exact hsq)]
      simp [hsq]
  · rw [if_neg hpar]
    by_cases hsq : (x0 * x0) % ((P25519 : Nat) : Int) = exp
    · rw [if_pos hsq]
      simp [hsq]
    · rw [if_neg hsq, if_neg (by rw [neg_emod_sq]; exact hsq)]
      simp [hsq]
  · rw [if_pos hpar]
    by_cases hsq : (x0 * x0) % ((P25519 : Nat) : Int) = exp
    · rw [if_pos (by rw [neg_emod_sq]; exact hsq)]
      intro x' y' hsome
      injection hsome with hpair
      injection hpair with h1 h2
      exact ⟨Or.inr h1.symm, h2.symm⟩
    · rw [if_neg (by rw [neg_emod_sq]; exact hsq),
        if_neg (by rw [neg_emod_sq, neg_emod_sq]; exact hsq)]
      intro x' y' hsome
      exact absurd hsome (by simp)
  · rw [if_neg hpar]
    by_cases hsq : (x0 * x0) % ((P25519 : Nat) : Int) = exp
    · rw [if_pos hsq]
      intro x' y' hsome
      injection hsome with hpair
      injection hpair with h1 h2
      exact ⟨Or.inl h1.symm, h2.symm⟩
    · rw [if_neg hsq, if_neg (by rw [neg_emod_sq]; exact hsq)]
      intro x' y' hsome
      exact absurd hsome (by simp)

/-- C5: the two scalar-preparation policies are not equivalent: at the
256-bit input `2^128`, truncate-then-reduce yields a different scalar than
direct reduction, and a decomposition `(s1, s2) = (ℓ, 1)` passes the hint
congruence check for the first scalar but fails it for the second. -/
theorem truncation_policies_inequivalent :
    VerifyFakeGlvDecomposition.truncate_then_reduce (2 ^ 128) ≠
      RegenerateDleqHints.reduce_scalar_direct (2 ^ 128) ∧
    (2 ^ 128 : Nat) < 2 ^ 256 ∧
    VerifyFakeGlvDecomposition.verify_hint
      ((VerifyFakeGlvDecomposition.truncate_then_reduce (2 ^ 128) : Nat) : Int)
      [0, 0, 0, 0, 0, 0, 0, 0, ((ED25519_ORDER : Nat) : Int), 1] = true ∧
    VerifyFakeGlvDecomposition.verify_hint
      ((RegenerateDleqHints.reduce_scalar_direct (2 ^ 128) : Nat) : Int)
      [0, 0, 0, 0, 0, 0, 0, 0, ((ED25519_ORDER : Nat) : Int), 1] = false :=
  ⟨by decide, by decide, by decide, by decide⟩

/-- C7 counterexample: at the encoded value `2^127 + 1` (inside `[0, 2^129)`)
the decoder of `verify_fake_glv_decomposition.py` yields `2^127 + 1` while the
inline decoder of `verify_exact_scalar_match.py` yields `2^127 - 1`: the three
decoding sites do not agree on all of `[0, 2^129)`. -/
theorem s2_decoder_counterexample :
    VerifyFakeGlvDecomposition.decode ((2 ^ 127 + 1 : Nat) : Int) = ((2 ^ 127 + 1 : Nat) : Int) ∧
    VerifyExactScalarMatch.s2_signed ((2 ^ 127 + 1 : Nat) : Int) = ((2 ^ 127 - 1 : Nat) : Int) ∧
    ((2 ^ 127 + 1 : Nat) : Int) ≠ ((2 ^ 127 - 1 : Nat) : Int) :=
  ⟨by decide, by decide, by decide⟩

/-- C7 amended: `decode` (verify_fake_glv_decomposition.py) and the decoder
inside `verify_hint` (regenerate_dleq_hints.py) agree on every input, and the
inline decoder of verify_exact_scalar_match.py agrees with them on
`(-∞, 2^127]` and on `[2^128, ∞)` — in particular on all of
`[0, 2^129)` except the open interval `(2^127, 2^128)`. -/
theorem s2_decoders_agreement_amended (e : Int) :
    VerifyFakeGlvDecomposition.decode e = RegenerateDleqHints.s2_decode e ∧
    (e ≤ 2 ^ 127 → VerifyFakeGlvDecomposition.decode e = VerifyExactScalarMatch.s2_signed e) ∧
    ((2 : Int) ^ 128 ≤ e →
      VerifyFakeGlvDecomposition.decode e = VerifyExactScalarMatch.s2_signed e) := by
  simp only [VerifyFakeGlvDecomposition.decode, RegenerateDleqHints.s2_decode,
    VerifyExactScalarMatch.s2_signed]
  norm_num [Nat.shiftLeft_eq]
  split_ifs <;> omega

/-- Witness for C7 amended at `e = 7`. -/
theorem s2_decoders_agreement_amended_witness :
    VerifyFakeGlvDecomposition.decode 7 = RegenerateDleqHints.s2_decode 7 ∧
    VerifyFakeGlvDecomposition.decode 7 = VerifyExactScalarMatch.s2_signed 7 :=
  ⟨(s2_decoders_agreement_amended 7).1,
   (s2_decoders_agreement_amended 7).2.1 (by norm_num)⟩

/-- C8 counterexample: the Fermat-exponentiation inverse used by the
decompression routines returns the value `0` on the zero input — it does not
fail: the claim that taking the inverse of zero fails rather than returning a
value is false at this site. -/
theorem fermat_inverse_zero_returns_value :
    fermat_inverse 0 = 0 ∧ (0 * fermat_inverse 0) % ((P25519 : Nat) : Int) ≠ 1 :=
  ⟨by decide, by decide⟩

/-- C8 amended: the Fermat-exponentiation inverse satisfies
`v · inverse(v) ≡ 1 (mod p)` for every `v ≢ 0 (mod p)`; on zero it returns
`0` rather than failing, while the extended-Euclid inverse `pow(v, -1, p)`
(`fix_hints.py`, `tools/generate_correct_sqrt_hints.py`) does fail on zero. -/
theorem fermat_inverse_correct_on_nonzero :
    (∀ v : Int, v % ((P25519 : Nat) : Int) ≠ 0 →
      (v * fermat_inverse v) % ((P25519 : Nat) : Int) = 1) ∧
    fermat_inverse 0 = 0 ∧
    invmod 0 P25519 = none := by
  refine ⟨?_, by decide, by decide⟩
  intro v hv
  have h1 : (1 : Int) % ((P25519 : Nat) : Int) = 1 := by norm_num [P25519]
  rw [← h1, ← ZMod.intCast_eq_intCast_iff']
  unfold fermat_inverse
  push_cast [intCast_ipowmod _ _ _ (by norm_num [P25519] : 0 < P25519)]
  have hvz : (v : ZMod P25519) ≠ 0 := by
    intro h
    rw [ZMod.intCast_zmod_eq_zero_iff_dvd] at h
    exact hv (Int.emod_eq_zero_of_dvd h)
  calc (v : ZMod P25519) * (v : ZMod P25519) ^ (P25519 - 2)
      = (v : ZMod P25519) ^ (P25519 - 2 + 1) := by rw [pow_succ]; ring
    _ = (v : ZMod P25519) ^ (P25519 - 1) := by norm_num [P25519]
    _ = 1 := ZMod.pow_card_sub_one_eq_one hvz

/-- Witness for C8 amended at `v = 2`. -/
theorem fermat_inverse_correct_on_nonzero_witness :
    (2 * fermat_inverse 2) % ((P25519 : Nat) : Int) = 1 :=
  fermat_inverse_correct_on_nonzero.1 2 (by decide)

/-- C9: splitting a value below `2^384` into 4 little-endian 96-bit limbs and
reconstructing `Σ limb[i]·2^(96·i)` returns the value, each produced limb is
below `2^96`, and conversely reconstructing any 4 limbs below `2^96` and
re-splitting returns the same limbs. -/
theorem limb_split_roundtrip :
    (∀ v : Nat, v < 2 ^ 384 →
      GenerateDleqHints.limbs_to_int (RegenerateDleqHints.u384_to_limbs v) = v ∧
      ∀ l ∈ RegenerateDleqHints.u384_to_limbs v, l < 2 ^ 96) ∧
    (∀ l0 l1 l2 l3 : Nat, l0 < 2 ^ 96 → l1 < 2 ^ 96 → l2 < 2 ^ 96 → l3 < 2 ^ 96 →
      RegenerateDleqHints.u384_to_limbs (GenerateDleqHints.limbs_to_int [l0, l1, l2, l3]) =
        [l0, l1, l2, l3]) := by
  constructor
  · intro v hv
    constructor
    · simp only [RegenerateDleqHints.u384_to_limbs, GenerateDleqHints.limbs_to_int,
        List.getD_cons_zero, List.getD_cons_succ, Nat.shiftLeft_eq, Nat.shiftRight_eq_div_pow,
        one_mul, Nat.and_pow_two_sub_one_eq_mod]
      omega
    · intro l hl
      simp only [RegenerateDleqHints.u384_to_limbs, Nat.shiftLeft_eq, one_mul,
        Nat.and_pow_two_sub_one_eq_mod, List.mem_cons, List.not_mem_nil, or_false] at hl
      rcases hl with rfl | rfl | rfl | rfl <;> exact Nat.mod_lt _ (by norm_num)
  · intro l0 l1 l2 l3 h0 h1 h2 h3
    simp only [RegenerateDleqHints.u384_to_limbs, GenerateDleqHints.limbs_to_int,
      List.getD_cons_zero, List.getD_cons_succ, Nat.shiftLeft_eq, Nat.shiftRight_eq_div_pow,
      one_mul, Nat.and_pow_two_sub_one_eq_mod, List.cons.injEq]
    refine ⟨by omega, by omega, by omega, by omega, trivial⟩

/-- Witness for C9 at `v = 3·2^97 + 5` and at the limbs `(5, 6, 0, 0)`. -/
theorem limb_split_roundtrip_witness :
    GenerateDleqHints.limbs_to_int (RegenerateDleqHints.u384_to_limbs (3 * 2 ^ 97 + 5)) =
      3 * 2 ^ 97 + 5 ∧
    RegenerateDleqHints.u384_to_limbs (GenerateDleqHints.limbs_to_int [5, 6, 0, 0]) =
      [5, 6, 0, 0] :=
  ⟨(limb_split_roundtrip.1 (3 * 2 ^ 97 + 5) (by norm_num)).1,
   limb_split_roundtrip.2 5 6 0 0 (by norm_num) (by norm_num) (by norm_num) (by norm_num)⟩

/-- C10: for every 32-byte string, the byte-wise u256 split (first 16 bytes
little-endian as low, last 16 as high) equals the arithmetic split
(low `= v mod 2^128`, high `= v div 2^128` of the little-endian integer of
all 32 bytes). -/
theorem u256_byte_split_eq_arith_split (bs : List Nat) (hlen : bs.length = 32)
    (hb : ∀ b ∈ bs, b < 256) :
    GenerateCorrectSqrtHints.hex_to_u256 bs = GaragaConversion.bytes_to_u256_garaga_style bs := by
  have h16 : (16 : Nat) ≤ bs.length := by omega
  have htake := fromLE_take_mod bs 16 h16 hb
  have hdrop := fromLE_drop_div bs 16 h16 hb
  have hlt : fromLE bs < 2 ^ 256 := by
    have := fromLE_lt bs hb
    rwa [hlen, show (256 : Nat) ^ 32 = 2 ^ 256 by norm_num] at this
  simp only [GenerateCorrectSqrtHints.hex_to_u256, GaragaConversion.bytes_to_u256_garaga_style,
    Nat.shiftLeft_eq, one_mul, Nat.and_pow_two_sub_one_eq_mod, Nat.shiftRight_eq_div_pow]
  rw [htake, hdrop, show (256 : Nat) ^ 16 = 2 ^ 128 by norm_num,
    Nat.mod_eq_of_lt (by omega : fromLE bs / 2 ^ 128 < 2 ^ 128)]

/-- Witness for C10 at the byte string `2, 0, ..., 0, 9`. -/
theorem u256_byte_split_eq_arith_split_witness :
    GenerateCorrectSqrtHints.hex_to_u256 (2 :: List.replicate 30 0 ++ [9]) =
      GaragaConversion.bytes_to_u256_garaga_style (2 :: List.replicate 30 0 ++ [9]) := by
  apply u256_byte_split_eq_arith_split
  · simp
  · intro b hb
    simp only [List.cons_append, List.mem_cons, List.mem_append, List.mem_replicate,
      List.mem_singleton, List.not_mem_nil, or_false] at hb
    rcases hb with rfl | ⟨_, rfl⟩ | rfl <;> norm_num

/-- The x-coordinate of the Ed25519 base point (even root). -/
def baseX : Nat := 15112221349535400772501151409588531511454012693041857206046113283949847762202

/-- The y-coordinate of the Ed25519 base point. -/
def baseY : Nat := 46316835694926478169428394003475163141307993866256225615783033603165251855960

theorem d_fix_eq : FixHints.d_fix = ((D25519 : Nat) : Int) := by decide

theorem ipowmod_nonneg (a : Int) (e m : Nat) : 0 ≤ ipowmod a e m := by
  unfold ipowmod
  exact Int.natCast_nonneg _

theorem ipowmod_lt_P (a : Int) (e : Nat) : ipowmod a e P25519 < ((P25519 : Nat) : Int) := by
  unfold ipowmod
  exact_mod_cast powmod_lt _ _ _ (by norm_num [P25519])

theorem emod_P_nonneg (a : Int) : 0 ≤ a % ((P25519 : Nat) : Int) :=
  Int.emod_nonneg a (by norm_num [P25519])

theorem emod_P_lt (a : Int) : a % ((P25519 : Nat) : Int) < ((P25519 : Nat) : Int) :=
  Int.emod_lt_of_pos a (by norm_num [P25519])

theorem I_sq_zmod :
    ((I25519 : Nat) : ZMod P25519) * ((I25519 : Nat) : ZMod P25519) = -1 := by
  have h : I25519 * I25519 % P25519 = P25519 - 1 := by decide
  calc ((I25519 : Nat) : ZMod P25519) * ((I25519 : Nat) : ZMod P25519)
      = ((I25519 * I25519 : Nat) : ZMod P25519) := by push_cast; ring
    _ = ((I25519 * I25519 % P25519 : Nat) : ZMod P25519) := (ZMod.natCast_mod _ _).symm
    _ = ((P25519 - 1 : Nat) : ZMod P25519) := by rw [h]
    _ = -1 := by
        rw [Nat.cast_sub (by norm_num [P25519] : 1 ≤ P25519), ZMod.natCast_self, Nat.cast_one]
        ring

theorem parity_branch_eq (z : Int) (h0 : 0 ≤ z) (hlt : z < ((P25519 : Nat) : Int)) :
    some (if z % 2 ≠ ((0 : Nat) : Int) then
      (((P25519 : Nat) : Int) - z) % ((P25519 : Nat) : Int) else z) =
    (if z % 2 ≠ 0 then some (((P25519 : Nat) : Int) - z) else some z : Option Int) := by
  simp only [Nat.cast_zero]
  by_cases hp : z % 2 ≠ 0
  · rw [if_pos hp, if_pos hp, Int.emod_eq_of_lt (by omega) (by omega)]
  · rw [if_neg hp, if_neg hp]

/-- C6 amended: `recover_x` (fix_hints.py) ignores the encoding's sign bit and
always returns the even square root, so the two x-recovery routines agree
exactly on the encodings whose sign bit is 0: for every `y_compressed < 2^255`,
`xrecover_twisted_edwards` and `recover_x` (applied to the extracted `y`)
return the same result.  For sign bit 1 they differ whenever the recovered
root is nonzero (see the counterexample). -/
theorem xrecover_eq_recover_x_on_sign_bit_zero (yc : Nat) (hyc : yc < 2 ^ 255) :
    GenerateSqrtHints.xrecover_twisted_edwards yc = FixHints.recover_x ((yc : Nat) : Int) := by
  have hsign : (yc >>> 255) &&& 1 = 0 := by
    rw [Nat.shiftRight_eq_div_pow, Nat.div_eq_of_lt hyc]
    decide
  have hmask : yc &&& ((1 <<< 255) - 1) = yc := by
    rw [Nat.shiftLeft_eq, one_mul, Nat.and_pow_two_sub_one_eq_mod, Nat.mod_eq_of_lt hyc]
  unfold GenerateSqrtHints.xrecover_twisted_edwards FixHints.recover_x
  simp only []
  rw [hsign, hmask, d_fix_eq]
  have hu : (((yc : Nat) : Int) * ((yc : Nat) : Int) - 1) % ((P25519 : Nat) : Int) =
      ((((yc : Nat) : Int) * ((yc : Nat) : Int)) % ((P25519 : Nat) : Int) - 1) %
        ((P25519 : Nat) : Int) := by
    rw [← ZMod.intCast_eq_intCast_iff']
    push_cast [ZMod.intCast_mod]
    ring
  have hv : (((D25519 : Nat) : Int) * ((yc : Nat) : Int) * ((yc : Nat) : Int) + 1) %
        ((P25519 : Nat) : Int) =
      (((D25519 : Nat) : Int) * ((((yc : Nat) : Int) * ((yc : Nat) : Int)) %
        ((P25519 : Nat) : Int)) + 1) % ((P25519 : Nat) : Int) := by
    rw [← ZMod.intCast_eq_intCast_iff']
    push_cast [ZMod.intCast_mod]
    ring
  rw [hu, hv]
  cases hinv : invmod ((((D25519 : Nat) : Int) * ((((yc : Nat) : Int) * ((yc : Nat) : Int)) %
      ((P25519 : Nat) : Int)) + 1) % ((P25519 : Nat) : Int)) P25519 with
  | none => rfl
  | some vinv =>
    simp only []
    set x2 := (((((yc : Nat) : Int) * ((yc : Nat) : Int)) % ((P25519 : Nat) : Int) - 1) %
      ((P25519 : Nat) : Int) * vinv) % ((P25519 : Nat) : Int) with hx2
    set x := ipowmod x2 ((P25519 + 3) / 8) P25519 with hx
    have hxnn : 0 ≤ x := hx ▸ ipowmod_nonneg x2 ((P25519 + 3) / 8) P25519
    have hxlt : x < ((P25519 : Nat) : Int) := hx ▸ ipowmod_lt_P x2 ((P25519 + 3) / 8)
    clear_value x2 x
    by_cases hchk : (x * x) % ((P25519 : Nat) : Int) = x2
    · rw [if_pos hchk, if_neg (not_not_intro hchk), if_neg (not_not_intro hchk)]
      exact parity_branch_eq x hxnn hxlt
    · rw [if_neg hchk, if_pos hchk]
      set xI := (x * ((I25519 : Nat) : Int)) % ((P25519 : Nat) : Int) with hxI
      have hxInn : 0 ≤ xI := hxI ▸ emod_P_nonneg _
      have hxIlt : xI < ((P25519 : Nat) : Int) := hxI ▸ emod_P_lt _
      clear_value xI
      by_cases hchk2 : (x * x) % ((P25519 : Nat) : Int) =
          (((P25519 : Nat) : Int) - x2) % ((P25519 : Nat) : Int)
      · rw [if_pos hchk2]
        by_cases h3 : (xI * xI) % ((P25519 : Nat) : Int) = x2
        · rw [if_pos h3, if_neg (not_not_intro h3)]
          exact parity_branch_eq xI hxInn hxIlt
        · rw [if_neg h3, if_pos h3]
      · rw [if_neg hchk2]
        have hne : (xI * xI) % ((P25519 : Nat) : Int) ≠ x2 := by
          intro heq
          apply hchk2
          have heqz : ((xI * xI : Int) : ZMod P25519) = ((x2 : Int) : ZMod P25519) := by
            have hc := congrArg (fun t : Int => ((t : Int) : ZMod P25519)) heq
            simpa [ZMod.intCast_mod] using hc
          rw [hxI] at heqz
          push_cast [ZMod.intCast_mod] at heqz
          rw [← ZMod.intCast_eq_intCast_iff']
          push_cast [ZMod.intCast_mod]
          rw [ZMod.natCast_self]
          linear_combination -heqz + ((x : Int) : ZMod P25519) * ((x : Int) : ZMod P25519) *
            I_sq_zmod
        rw [if_pos hne]

/-- C6 counterexample: the compressed encoding `y_B + 2^255` (the Ed25519 base
point's `y` with sign bit 1) encodes the valid curve point `(p − x_B, y_B)`;
on it `xrecover_twisted_edwards` returns the odd root `p − x_B`, while
`recover_x` on the same extracted `y`-coordinate returns the even root `x_B`:
the two routines do not apply the same sign-bit convention. -/
theorem sign_bit_convention_counterexample :
    GenerateSqrtHints.xrecover_twisted_edwards (baseY + 2 ^ 255) =
      some ((P25519 - baseX : Nat) : Int) ∧
    FixHints.recover_x ((baseY : Nat) : Int) = some ((baseX : Nat) : Int) ∧
    ((P25519 - baseX : Nat) : Int) ≠ ((baseX : Nat) : Int) ∧
    (baseY + 2 ^ 255) &&& ((1 <<< 255) - 1) = baseY ∧
    SpecModel.onCurve ((P25519 - baseX : Nat) : Int) ((baseY : Nat) : Int) :=
  ⟨by decide, by decide, by decide, by decide, by decide⟩

/-- Witness for C6 amended at the base point's sign-bit-0 encoding. -/
theorem xrecover_eq_recover_x_on_sign_bit_zero_witness :
    GenerateSqrtHints.xrecover_twisted_edwards baseY =
      FixHints.recover_x ((baseY : Nat) : Int) :=
  xrecover_eq_recover_x_on_sign_bit_zero baseY (by decide)
theorem D_ne_neg_one : ((D25519 : Nat) : ZMod P25519) ≠ -1 := by
  intro h
  rw [show (-1 : ZMod P25519) = ((P25519 - 1 : Nat) : ZMod P25519) by
      rw [Nat.cast_sub (by norm_num [P25519] : 1 ≤ P25519), ZMod.natCast_self, Nat.cast_one]
      ring,
    ZMod.natCast_eq_natCast_iff'] at h
  exact absurd h (by decide)

/-- C3: for every valid curve point `(x, y)` (reduced coordinates satisfying
the twisted-Edwards equation), decompressing the compression of the point,
with the true x-coordinate supplied as the square-root witness (split into
the u256 low/high halves the source expects), returns the point exactly. -/
theorem decompress_compress_roundtrip (x y : Nat) (hx : x < P25519) (hy : y < P25519)
    (hcurve : SpecModel.onCurve ((x : Nat) : Int) ((y : Nat) : Int)) :
    RegenerateDleqHints.decompress_edwards_point (SpecModel.compress x y)
      (x % 2 ^ 128) (x / 2 ^ 128) = some (((x : Nat) : Int), ((y : Nat) : Int)) := by
  have hy255 : y < 2 ^ 255 := lt_trans hy (by norm_num [P25519])
  have hb : x % 2 ^ 128 < 2 ^ 128 := Nat.mod_lt _ (by norm_num)
  have hlor : (x % 2 ^ 128) ||| ((x / 2 ^ 128) <<< 128) = x := by
    have h1 := Nat.mul_add_lt_is_or hb (x / 2 ^ 128)
    calc (x % 2 ^ 128) ||| ((x / 2 ^ 128) <<< 128)
        = (x % 2 ^ 128) ||| (x / 2 ^ 128 * 2 ^ 128) := by rw [Nat.shiftLeft_eq]
      _ = (x / 2 ^ 128 * 2 ^ 128) ||| (x % 2 ^ 128) := Nat.lor_comm _ _
      _ = (2 ^ 128 * (x / 2 ^ 128)) ||| (x % 2 ^ 128) := by rw [Nat.mul_comm]
      _ = 2 ^ 128 * (x / 2 ^ 128) + x % 2 ^ 128 := h1.symm
      _ = x := by omega
  have hsign : (SpecModel.compress x y >>> 255) &&& 1 = x % 2 := by
    unfold SpecModel.compress
    rw [Nat.shiftRight_eq_div_pow,
      show (y + x % 2 * 2 ^ 255) / 2 ^ 255 = x % 2 by omega,
      show (1 : Nat) = 2 ^ 1 - 1 from rfl, Nat.and_pow_two_sub_one_eq_mod]
    omega
  have hmask : SpecModel.compress x y &&& ((1 <<< 255) - 1) = y := by
    unfold SpecModel.compress
    rw [Nat.shiftLeft_eq, one_mul, Nat.and_pow_two_sub_one_eq_mod]
    omega
  unfold RegenerateDleqHints.decompress_edwards_point GenerateHintsExact.decompress_with_garaga
  simp only []
  rw [hlor, hsign, hmask]
  have hx0 : ((x : Nat) : Int) % ((P25519 : Nat) : Int) = ((x : Nat) : Int) :=
    Int.emod_eq_of_lt (by positivity) (by exact_mod_cast hx)
  rw [hx0]
  rw [if_neg (by push_cast; omega :
    ¬(((x : Nat) : Int) % 2 ≠ ((x % 2 : Nat) : Int)))]
  have hkey : ((x : Nat) : Int) * ((x : Nat) : Int) % ((P25519 : Nat) : Int) =
      (((y : Nat) : Int) * ((y : Nat) : Int) % ((P25519 : Nat) : Int) - 1) %
        ((P25519 : Nat) : Int) *
      fermat_inverse ((((D25519 : Nat) : Int) * (((y : Nat) : Int) * ((y : Nat) : Int) %
        ((P25519 : Nat) : Int)) + 1) % ((P25519 : Nat) : Int)) % ((P25519 : Nat) : Int) := by
    rw [← ZMod.intCast_eq_intCast_iff']
    unfold fermat_inverse
    push_cast [ZMod.intCast_mod, intCast_ipowmod _ _ _ (by norm_num [P25519] : 0 < P25519)]
    rw [SpecModel.onCurve, ← ZMod.intCast_eq_intCast_iff'] at hcurve
    push_cast at hcurve
    set X := ((x : Nat) : ZMod P25519) with hX
    set Y := ((y : Nat) : ZMod P25519) with hY
    set Dz := ((D25519 : Nat) : ZMod P25519) with hDz
    have hnum : Y * Y - 1 = (X * X) * (Dz * (Y * Y) + 1) := by linear_combination hcurve
    have hden : Dz * (Y * Y) + 1 ≠ 0 := by
      intro h0
      have hy1 : Y * Y = 1 := by
        have hz : (X * X) * (Dz * (Y * Y) + 1) = 0 := by rw [h0]; ring
        have h2 : Y * Y - 1 = 0 := by rw [hnum, hz]
        linear_combination h2
      rw [hy1, mul_one] at h0
      exact D_ne_neg_one (by linear_combination h0)
    calc X * X
        = (X * X) * ((Dz * (Y * Y) + 1) ^ (P25519 - 1)) := by
          rw [ZMod.pow_card_sub_one_eq_one hden, mul_one]
      _ = (X * X) * ((Dz * (Y * Y) + 1) * (Dz * (Y * Y) + 1) ^ (P25519 - 2)) := by
          rw [← pow_succ']
          norm_num [P25519]
      _ = (Y * Y - 1) * (Dz * (Y * Y) + 1) ^ (P25519 - 2) := by rw [hnum]; ring
  rw [if_pos hkey]

/-- Witness for C3 at the Ed25519 base point. -/
theorem decompress_compress_roundtrip_witness :
    RegenerateDleqHints.decompress_edwards_point (SpecModel.compress baseX baseY)
      (baseX % 2 ^ 128) (baseX / 2 ^ 128) =
      some (((baseX : Nat) : Int), ((baseY : Nat) : Int)) :=
  decompress_compress_roundtrip baseX baseY (by decide) (by decide) (by decide)
